import Mathlib

/-!
# Verification of the Kupmios provider adapter (`src/provider/kupmios.ts`)

A shallow embedding of the Kupmios chain-state provider adapter.  Network
effects are made explicit: every backend response that the TypeScript code
awaits becomes an explicit argument (an oracle function or a response value),
and the adapter methods become pure Lean functions over those arguments.

JavaScript-specific behaviour is modelled explicitly where it matters:
* `null`/`undefined` become `Option`,
* string truthiness (`if (s)`) becomes an emptiness test,
* thrown exceptions / rejected promises become `Except`.
-/

namespace Kupmios

/-! ## Authentication session (lines 27, 42-74 of kupmios.ts)

`cfAuthorizationCookie` starts as `null`; `getAuthHeaders` emits either the
cookie header or the client-id/secret pair; `authenticatedFetch` scrapes a
`Set-Cookie` response header with the regex `CF_Authorization=([^;]+)`. -/

structure KupmiosAuthState where
  clientId : String
  clientSecret : String
  cfAuthorizationCookie : Option String
deriving DecidableEq, Repr

/-- JavaScript truthiness of a nullable string: `null` and `""` are falsy. -/
def jsTruthy : Option String → Bool
  | none => false
  | some s => !(s == "")

/-- The header list built by `getAuthHeaders` (lines 42-51).  The branch on
`this.cfAuthorizationCookie` is JavaScript truthiness: `null` and the empty
string both take the else branch. -/
def getAuthHeaders (st : KupmiosAuthState) : List (String × String) :=
  if jsTruthy st.cfAuthorizationCookie then
    [("Cookie", "CF_Authorization=" ++ st.cfAuthorizationCookie.getD "")]
  else
    [("CF-Access-Client-Id", st.clientId), ("CF-Access-Client-Secret", st.clientSecret)]

/-- The characters of the cookie-name pattern `CF_Authorization=`. -/
def cfCookiePattern : List Char := "CF_Authorization=".toList

/-- `listStartsWith p s` holds when `p` is an initial segment of `s`. -/
def listStartsWith : List Char → List Char → Bool
  | [], _ => true
  | _ :: _, [] => false
  | p :: ps, c :: cs => p = c && listStartsWith ps cs

/-- The regex match `s.match(/CF_Authorization=([^;]+)/)` (line 67): scan the
string left to right; at the first position where the literal pattern is
followed by at least one non-`;` character, capture the maximal run of
non-`;` characters; otherwise keep scanning. -/
def cfMatch : List Char → Option (List Char)
  | [] => none
  | c :: cs =>
    if listStartsWith cfCookiePattern (c :: cs) then
      if ((c :: cs).drop cfCookiePattern.length).takeWhile (fun ch => ch ≠ ';') = [] then
        cfMatch cs
      else
        some (((c :: cs).drop cfCookiePattern.length).takeWhile (fun ch => ch ≠ ';'))
    else cfMatch cs

/-- The state effect of one `authenticatedFetch` call (lines 53-74), given the
`Set-Cookie` header of the response (`none` when the response has no such
header).  The cookie field is overwritten exactly when the header is present,
truthy, and the regex matches. -/
def authenticatedFetchStep (st : KupmiosAuthState) (setCookie : Option String) :
    KupmiosAuthState :=
  match setCookie with
  | none => st
  | some header =>
    if header = "" then st
    else
      match cfMatch header.toList with
      | some v => { st with cfAuthorizationCookie := some (String.mk v) }
      | none => st

/-- Whether a response's `Set-Cookie` header (if any) carries a value the
regex of line 67 matches. -/
def setsCookie : Option String → Bool
  | none => false
  | some header => (cfMatch header.toList).isSome

/-- The sequence of header lists sent by a sequence of authenticated calls on
one adapter instance, where `rs` lists each response's `Set-Cookie` header. -/
def authenticatedCalls (st : KupmiosAuthState) : List (Option String) → List (List (String × String))
  | [] => []
  | r :: rs => getAuthHeaders st :: authenticatedCalls (authenticatedFetchStep st r) rs

/-! ## Canonical data model (`UTxO`, `OutRef`, raw indexer match records) -/

/-- An output reference: `{ txHash, outputIndex }`. -/
structure OutRef where
  txHash : String
  outputIndex : Nat
deriving DecidableEq, Repr

/-- A reference script, tagged by language (`"Native"`, `"PlutusV1"`,
`"PlutusV2"`) and carrying the (possibly re-encoded) script body. -/
structure ScriptRef where
  type : String
  script : String
deriving DecidableEq, Repr

/-- The canonical unspent output produced by `kupmiosUtxosToUtxos`
(lines 278-322).  Assets are an association list from unit to quantity. -/
structure UTxO where
  txHash : String
  outputIndex : Nat
  address : String
  assets : List (String × Int)
  datumHash : Option String
  datum : Option String
  scriptRef : Option ScriptRef
deriving DecidableEq, Repr

/-- A raw Kupo match record, as consumed by `kupmiosUtxosToUtxos`:
`transaction_id`, `output_index`, `address`, `value.coins`, `value.assets`
(unit keys of the form `policyId.assetName`), `datum_type` (`"hash"`,
`"inline"`, or absent), `datum_hash`, and an optional `script_hash`. -/
structure KupmiosUtxo where
  transaction_id : String
  output_index : Nat
  address : String
  coins : Int
  assets : List (String × Int)
  datum_type : Option String
  datum_hash : String
  script_hash : Option String
deriving DecidableEq, Repr

/-! ## Datum fetch (`getDatum`, lines 229-237)

The oracle maps a datum hash to the backend's JSON response:
`none` = response is `null`/falsy, `some none` = response object with no
(or null) `datum` field, `some (some d)` = response `{ datum: d }`.
`if (!result || !result.datum) throw` rejects all of `null` result, missing
datum and (by string falsiness) an empty-string datum. -/

def getDatum (datumOracle : String → Option (Option String)) (datumHash : String) :
    Except String String :=
  match datumOracle datumHash with
  | none => .error ("No datum found for datum hash: " ++ datumHash)
  | some none => .error ("No datum found for datum hash: " ++ datumHash)
  | some (some d) =>
    if d = "" then .error ("No datum found for datum hash: " ++ datumHash)
    else .ok d

/-! ## UTxO normalization (`kupmiosUtxosToUtxos`, lines 278-322) -/

/-- JavaScript `unit.replace(".", "")` with a string pattern removes only the
first occurrence of `"."`. -/
def removeFirstDot : List Char → List Char
  | [] => []
  | c :: cs => if c = '.' then cs else c :: removeFirstDot cs

/-- Resolution of `scriptRef` (lines 298-318).  `scriptOracle` maps a script
hash to the `{ script, language }` response of `GET /scripts/{hash}`;
`reencode` stands for the external library round-trip
`toHex(C.PlutusScript.new(fromHex(script)).to_bytes())`.  A language tag
other than the three known ones falls off the `if`/`else if` chain, so the
immediately-invoked function returns `undefined`. -/
def resolveScriptRef (reencode : String → String)
    (scriptOracle : String → String × String) : Option String → Option ScriptRef
  | none => none
  | some h =>
    let script := (scriptOracle h).1
    let language := (scriptOracle h).2
    if language = "native" then some ⟨"Native", script⟩
    else if language = "plutus:v1" then some ⟨"PlutusV1", reencode script⟩
    else if language = "plutus:v2" then some ⟨"PlutusV2", reencode script⟩
    else none

/-- Normalization of one raw match record (the mapped function of
lines 281-319).  The only failure point is the inline-datum fetch. -/
def kupmiosUtxoToUtxo (datumOracle : String → Option (Option String))
    (reencode : String → String) (scriptOracle : String → String × String)
    (u : KupmiosUtxo) : Except String UTxO :=
  match (if u.datum_type = some "inline" then
           Except.map some (getDatum datumOracle u.datum_hash)
         else
           Except.ok none) with
  | Except.error e => Except.error e
  | Except.ok datum => Except.ok
    { txHash := u.transaction_id
      outputIndex := u.output_index
      address := u.address
      assets := ("lovelace", u.coins) ::
        u.assets.map (fun p => (String.mk (removeFirstDot p.1.toList), p.2))
      datumHash := if u.datum_type = some "hash" then some u.datum_hash else none
      datum := datum
      scriptRef := resolveScriptRef reencode scriptOracle u.script_hash }

/-- `kupmiosUtxosToUtxos` over a whole response array (`Promise.all` of the
per-record normalizations: all must succeed). -/
def kupmiosUtxosToUtxos (datumOracle : String → Option (Option String))
    (reencode : String → String) (scriptOracle : String → String × String)
    (us : List KupmiosUtxo) : Except String (List UTxO) :=
  us.mapM (kupmiosUtxoToUtxo datumOracle reencode scriptOracle)

/-! ## `getUtxoByUnit` (lines 159-174)

`records` is the JSON array returned by the exact-unit query
`GET /matches/{policyId}.{assetName|*}?unspent`.  After normalization the
code throws when `utxos.length > 1` and otherwise returns `utxos[0]`, which
is `undefined` on an empty array — modelled as `Option UTxO`. -/

def getUtxoByUnit (datumOracle : String → Option (Option String))
    (reencode : String → String) (scriptOracle : String → String × String)
    (records : List KupmiosUtxo) : Except String (Option UTxO) :=
  match kupmiosUtxosToUtxos datumOracle reencode scriptOracle records with
  | Except.error e => Except.error e
  | Except.ok utxos =>
    if utxos.length > 1 then
      Except.error "Unit needs to be an NFT or only held by one address."
    else
      Except.ok utxos.head?

/-! ## `getUtxosByOutRef` (lines 176-197) -/

/-- `[...new Set(l)]`: deduplication keeping the first occurrence of each
element, in order. -/
def jsSetDedup : List String → List String
  | [] => []
  | x :: xs => x :: jsSetDedup (xs.filter (fun y => y ≠ x))
termination_by l => l.length
decreasing_by
  simp only [List.length_cons]
  exact Nat.lt_succ_of_le (xs.length_filter_le _)

/-- `getUtxosByOutRef`: deduplicate the transaction hashes, query each hash
once, concatenate, then filter to the requested (hash, index) pairs.
`fetchMatches h` stands for the already-normalized result of
`GET /matches/*@h?unspent` followed by `kupmiosUtxosToUtxos`. -/
def getUtxosByOutRef (fetchMatches : String → List UTxO) (outRefs : List OutRef) :
    List UTxO :=
  (((jsSetDedup (outRefs.map OutRef.txHash)).map fetchMatches).foldl
      (fun acc l => acc ++ l) []).filter
    (fun u => outRefs.any (fun r => u.txHash == r.txHash && u.outputIndex == r.outputIndex))

/-! ## `getDelegation` (lines 199-227)

The oracle value is the parsed `result` field: `none` for a `null` result,
`some entries` for an object whose values are the account summaries (at most
one, since the query carries a single reward address).  When `result` is
`null` the code sets `delegation = {}` and then `delegation?.delegate.id`
throws a `TypeError` (the optional chain only guards `delegation` itself);
when the object is empty, `Object.values(result)[0]` is `undefined` and the
optional chains yield `undefined`, giving `null` pool id and `0` rewards. -/

structure RewardEntry where
  delegate_id : String
  rewards_lovelace : Int
deriving DecidableEq, Repr

structure Delegation where
  poolId : Option String
  rewards : Int
deriving DecidableEq, Repr

def getDelegation (result : Option (List RewardEntry)) : Except String Delegation :=
  match result with
  | none => .error "TypeError: cannot read property of undefined"
  | some entries =>
    match entries.head? with
    | none => .ok { poolId := none, rewards := 0 }
    | some e =>
      .ok { poolId := if e.delegate_id = "" then none else some e.delegate_id
            rewards := e.rewards_lovelace }

/-! ## `submitTx` (lines 254-276)

The response message carries `result` and `error` fields;
`if (result?.transaction) res(result.transaction.id); else rej(error)`.
The error payload is kept opaque (a string), passed through unchanged. -/

structure TxInfo where
  id : String
deriving DecidableEq, Repr

structure SubmitResult where
  transaction : Option TxInfo
deriving DecidableEq, Repr

structure SubmitResponse where
  result : Option SubmitResult
  error : Option String
deriving DecidableEq, Repr

def submitTx (r : SubmitResponse) : Except (Option String) String :=
  match r.result with
  | some sr =>
    match sr.transaction with
    | some t => .ok t.id
    | none => .error r.error
  | none => .error r.error

/-! ## Execution-price parsing (`getProtocolParameters`, lines 93-106)

`result.scriptExecutionPrices.memory.split("/")` destructured into the first
two parts, each passed through `parseInt`, then divided.  `parseInt` is
modelled for base-10 inputs (optional sign, longest leading digit run, `NaN`
= `none` when there is none); the division is modelled over `ℚ`, which is
exact on every value this code can produce from such strings (a `NaN` or
division by zero is `none`). -/

def digitsToNat (cs : List Char) : Nat :=
  cs.foldl (fun a c => 10 * a + (c.toNat - 48)) 0

/-- JavaScript `s.split(sep)` for a one-character separator. -/
def jsSplit (sep : Char) : List Char → List (List Char)
  | [] => [[]]
  | c :: cs =>
    if c = sep then [] :: jsSplit sep cs
    else
      match jsSplit sep cs with
      | [] => [[c]]
      | p :: ps => (c :: p) :: ps

def jsWhitespace (c : Char) : Bool :=
  c = ' ' || c = '\t' || c = '\n' || c = '\r'

/-- `parseInt(s)` on base-10 input: skip leading whitespace, optional sign,
longest run of digits; `none` models `NaN`. -/
def jsParseIntChars (s : List Char) : Option Int :=
  match s.dropWhile jsWhitespace with
  | '-' :: rest =>
    let ds := rest.takeWhile Char.isDigit
    if ds = [] then none else some (-(digitsToNat ds : Int))
  | '+' :: rest =>
    let ds := rest.takeWhile Char.isDigit
    if ds = [] then none else some (digitsToNat ds)
  | cs =>
    let ds := cs.takeWhile Char.isDigit
    if ds = [] then none else some (digitsToNat ds)

def parseExecPrice (s : String) : Option ℚ :=
  let parts := jsSplit '/' s.toList
  match jsParseIntChars (parts.getD 0 []), (parts.get? 1).bind jsParseIntChars with
  | some n, some d => if d = 0 then none else some ((n : ℚ) / (d : ℚ))
  | _, _ => none

/-- The `(priceMem, priceStep)` pair computed from
`result.scriptExecutionPrices` (lines 93-96, 105-106). -/
def parseScriptExecutionPrices (memory cpu : String) : Option ℚ × Option ℚ :=
  (parseExecPrice memory, parseExecPrice cpu)

end Kupmios

namespace Kupmios

/-! ## Claim theorems -/

/-- The regex `CF_Authorization=([^;]+)` needs at least one captured
character: a successful `cfMatch` capture is nonempty. -/
theorem cfMatch_ne_nil : ∀ l v, cfMatch l = some v → v ≠ [] := by
  intro l
  induction l with
  | nil => intro v h; cases h
  | cons c cs ih =>
    intro v h
    rw [cfMatch] at h
    by_cases hs : listStartsWith cfCookiePattern (c :: cs) = true
    · rw [if_pos hs] at h
      by_cases hv : ((c :: cs).drop cfCookiePattern.length).takeWhile
          (fun ch => ch ≠ ';') = []
      · rw [if_pos hv] at h
        exact ih v h
      · rw [if_neg hv] at h
        cases h
        exact hv
    · rw [if_neg hs] at h
      exact ih v h

theorem stringMk_ne_empty (v : List Char) (hv : v ≠ []) : String.mk v ≠ "" := by
  intro h
  exact hv (congrArg String.data h)

/-- A call whose response does not set a matching cookie leaves the auth
state untouched. -/
theorem authenticatedFetchStep_of_not_sets (st : KupmiosAuthState) (r : Option String)
    (h : setsCookie r = false) : authenticatedFetchStep st r = st := by
  cases r with
  | none => rfl
  | some header =>
    rw [setsCookie] at h
    simp only [authenticatedFetchStep]
    by_cases hh : header = ""
    · rw [if_pos hh]
    · rw [if_neg hh]
      cases hm : cfMatch header.toList with
      | none => rfl
      | some v => rw [hm] at h; cases h

/-- A call whose response sets a matching cookie overwrites the cookie field
with the (nonempty) captured value. -/
theorem authenticatedFetchStep_of_sets (st : KupmiosAuthState) (r : Option String)
    (h : setsCookie r = true) :
    ∃ v, v ≠ [] ∧ authenticatedFetchStep st r =
      { st with cfAuthorizationCookie := some (String.mk v) } := by
  cases r with
  | none => cases h
  | some header =>
    rw [setsCookie] at h
    obtain ⟨v, hv⟩ := Option.isSome_iff_exists.mp h
    have hne : header ≠ "" := by
      intro hh
      subst hh
      exact Option.noConfusion hv
    refine ⟨v, cfMatch_ne_nil _ v hv, ?_⟩
    simp only [authenticatedFetchStep]
    rw [if_neg hne, hv]

theorem getAuthHeaders_of_cookie (st : KupmiosAuthState) (c : String)
    (hc : st.cfAuthorizationCookie = some c) (hne : c ≠ "") :
    getAuthHeaders st = [("Cookie", "CF_Authorization=" ++ c)] := by
  rw [getAuthHeaders, hc]
  simp [jsTruthy, hne]

/-- Once the auth state holds a truthy cookie, every later call sends the
single cookie header. -/
theorem authenticatedCalls_cookie (rs : List (Option String)) :
    ∀ (st : KupmiosAuthState) (c : String),
      st.cfAuthorizationCookie = some c → c ≠ "" →
      ∀ i, i < rs.length →
        ∃ c', c' ≠ "" ∧ (authenticatedCalls st rs)[i]? =
          some [("Cookie", "CF_Authorization=" ++ c')] := by
  induction rs with
  | nil =>
    intro st c _ _ i hi
    exact absurd hi (Nat.not_lt_zero i)
  | cons r rs ih =>
    intro st c hc hne i hi
    cases i with
    | zero =>
      refine ⟨c, hne, ?_⟩
      simp only [authenticatedCalls, List.getElem?_cons_zero]
      rw [getAuthHeaders_of_cookie st c hc hne]
    | succ i =>
      simp only [authenticatedCalls, List.getElem?_cons_succ]
      rcases Bool.eq_false_or_eq_true (setsCookie r) with hst | hsf
      · obtain ⟨v, hv, hstep⟩ := authenticatedFetchStep_of_sets st r hst
        rw [hstep]
        exact ih _ (String.mk v) rfl (stringMk_ne_empty v hv) i (Nat.lt_of_succ_lt_succ hi)
      · rw [authenticatedFetchStep_of_not_sets st r hsf]
        exact ih st c hc hne i (Nat.lt_of_succ_lt_succ hi)

/-- C3: on one adapter instance, every authenticated call made before any
response carried a matching session cookie sends the client-id/client-secret
header pair; every call made after some response carried one sends the single
cookie header and omits the client-id/secret headers; and a step only ever
leaves the cookie field unchanged or overwrites it with a new (truthy) cookie
value — it is never cleared, so the upgrade is never undone. -/
theorem authHeaders_upgrade (cid csec : String) (rs : List (Option String)) (i : Nat)
    (hi : i < rs.length) :
    (if (rs.take i).any setsCookie = true then
        ∃ c, c ≠ "" ∧ (authenticatedCalls ⟨cid, csec, none⟩ rs)[i]? =
          some [("Cookie", "CF_Authorization=" ++ c)]
      else (authenticatedCalls ⟨cid, csec, none⟩ rs)[i]? =
        some [("CF-Access-Client-Id", cid), ("CF-Access-Client-Secret", csec)]) ∧
    (∀ (st : KupmiosAuthState) (r : Option String),
      (authenticatedFetchStep st r).cfAuthorizationCookie = st.cfAuthorizationCookie ∨
      ∃ v, v ≠ "" ∧ (authenticatedFetchStep st r).cfAuthorizationCookie = some v) := by
  constructor
  · induction rs generalizing i with
    | nil => exact absurd hi (Nat.not_lt_zero i)
    | cons r rs ih =>
      cases i with
      | zero =>
        rw [List.take_zero]
        simp only [List.any_nil, if_neg Bool.false_ne_true]
        simp only [authenticatedCalls, List.getElem?_cons_zero]
        rfl
      | succ i =>
        rw [List.take_succ_cons, List.any_cons]
        rcases Bool.eq_false_or_eq_true (setsCookie r) with hst | hsf
        · rw [hst, Bool.true_or, if_pos rfl]
          simp only [authenticatedCalls, List.getElem?_cons_succ]
          obtain ⟨v, hv, hstep⟩ := authenticatedFetchStep_of_sets ⟨cid, csec, none⟩ r hst
          rw [hstep]
          exact authenticatedCalls_cookie rs _ (String.mk v) rfl
            (stringMk_ne_empty v hv) i (Nat.lt_of_succ_lt_succ hi)
        · rw [hsf, Bool.false_or]
          simp only [authenticatedCalls, List.getElem?_cons_succ,
            authenticatedFetchStep_of_not_sets _ r hsf]
          exact ih i (Nat.lt_of_succ_lt_succ hi)
  · intro st r
    rcases Bool.eq_false_or_eq_true (setsCookie r) with hst | hsf
    · obtain ⟨v, hv, hstep⟩ := authenticatedFetchStep_of_sets st r hst
      exact .inr ⟨String.mk v, stringMk_ne_empty v hv, by rw [hstep]⟩
    · exact .inl (by rw [authenticatedFetchStep_of_not_sets st r hsf])

theorem authHeaders_upgrade_witness :
    ((authenticatedCalls ⟨"id0", "sec0", none⟩
        [some "CF_Authorization=tok; Path=/", none])[0]? =
      some [("CF-Access-Client-Id", "id0"), ("CF-Access-Client-Secret", "sec0")]) ∧
    ∃ c, c ≠ "" ∧ (authenticatedCalls ⟨"id0", "sec0", none⟩
        [some "CF_Authorization=tok; Path=/", none])[1]? =
      some [("Cookie", "CF_Authorization=" ++ c)] := by
  constructor
  · have h := (authHeaders_upgrade "id0" "sec0"
      [some "CF_Authorization=tok; Path=/", none] 0 (by decide)).1
    rwa [if_neg (by decide)] at h
  · have h := (authHeaders_upgrade "id0" "sec0"
      [some "CF_Authorization=tok; Path=/", none] 1 (by decide)).1
    rwa [if_pos (by decide)] at h

/-- `jsSetDedup` preserves membership. -/
theorem mem_jsSetDedup (a : String) : ∀ l : List String, a ∈ jsSetDedup l ↔ a ∈ l := by
  intro l
  induction l using jsSetDedup.induct with
  | case1 => rw [jsSetDedup]
  | case2 x xs ih =>
    rw [jsSetDedup]
    simp only [List.mem_cons, ih, List.mem_filter, decide_eq_true_eq]
    constructor
    · rintro (rfl | ⟨hmem, _⟩)
      · exact .inl rfl
      · exact .inr hmem
    · rintro (rfl | hmem)
      · exact .inl rfl
      · by_cases hax : a = x
        · exact .inl hax
        · exact .inr ⟨hmem, hax⟩

/-- `jsSetDedup` produces a duplicate-free list. -/
theorem nodup_jsSetDedup : ∀ l : List String, (jsSetDedup l).Nodup := by
  intro l
  induction l using jsSetDedup.induct with
  | case1 => rw [jsSetDedup]; exact List.Pairwise.nil
  | case2 x xs ih =>
    rw [jsSetDedup]
    refine List.nodup_cons.mpr ⟨?_, ih⟩
    intro hmem
    rw [mem_jsSetDedup] at hmem
    have hx := List.mem_filter.mp hmem
    simp at hx

/-- `l.reduce((acc, xs) => acc.concat(xs), [])` flattens. -/
theorem foldl_append_eq_flatten {α : Type} (L : List (List α)) :
    ∀ acc : List α, L.foldl (fun acc l => acc ++ l) acc = acc ++ L.flatten := by
  induction L with
  | nil => intro acc; simp
  | cons l L ih => intro acc; simp [ih]

/-- C1: `getUtxosByOutRef` returns exactly the set of unspent outputs whose
(transaction hash, output index) pair occurs in the input array — no
duplicates and no extras — for any input array, including ones whose
references share a transaction hash.  The hypotheses record the indexer
contract for `GET /matches/*@{txHash}?unspent`: every returned output
belongs to the queried transaction, and one transaction's outputs have
pairwise distinct output indices. -/
theorem getUtxosByOutRef_exact (fetchMatches : String → List UTxO) (outRefs : List OutRef)
    (hHash : ∀ h u, u ∈ fetchMatches h → u.txHash = h)
    (hIdx : ∀ h, (fetchMatches h).Pairwise (fun a b => a.outputIndex ≠ b.outputIndex)) :
    (getUtxosByOutRef fetchMatches outRefs).Nodup ∧
    ∀ u, u ∈ getUtxosByOutRef fetchMatches outRefs ↔
      (u ∈ fetchMatches u.txHash ∧
        ∃ r ∈ outRefs, r.txHash = u.txHash ∧ r.outputIndex = u.outputIndex) := by
  have hflat : getUtxosByOutRef fetchMatches outRefs =
      (((jsSetDedup (outRefs.map OutRef.txHash)).map fetchMatches).flatten).filter
        (fun u => outRefs.any
          (fun r => u.txHash == r.txHash && u.outputIndex == r.outputIndex)) := by
    rw [getUtxosByOutRef, foldl_append_eq_flatten, List.nil_append]
  constructor
  · rw [hflat]
    apply List.Nodup.filter
    rw [List.nodup_flatten]
    constructor
    · intro l hl
      obtain ⟨h, _, rfl⟩ := List.mem_map.mp hl
      exact (hIdx h).imp (fun hab heq => hab (congrArg UTxO.outputIndex heq))
    · rw [List.pairwise_map]
      refine (nodup_jsSetDedup (outRefs.map OutRef.txHash)).imp ?_
      intro h₁ h₂ hne u hu₁ hu₂
      exact hne ((hHash h₁ u hu₁) ▸ (hHash h₂ u hu₂))
  · intro u
    rw [hflat, List.mem_filter]
    constructor
    · rintro ⟨hmem, hpred⟩
      obtain ⟨l, hl, hul⟩ := List.mem_flatten.mp hmem
      obtain ⟨h, _, rfl⟩ := List.mem_map.mp hl
      have hth : u.txHash = h := hHash h u hul
      obtain ⟨r, hr, hru⟩ := List.any_eq_true.mp hpred
      rw [Bool.and_eq_true, beq_iff_eq, beq_iff_eq] at hru
      exact ⟨hth ▸ hul, r, hr, hru.1.symm, hru.2.symm⟩
    · rintro ⟨hmem, r, hr, hrt, hri⟩
      refine ⟨List.mem_flatten.mpr ⟨fetchMatches u.txHash, ?_, hmem⟩, ?_⟩
      · refine List.mem_map.mpr ⟨u.txHash, ?_, rfl⟩
        rw [mem_jsSetDedup]
        exact List.mem_map.mpr ⟨r, hr, hrt⟩
      · refine List.any_eq_true.mpr ⟨r, hr, ?_⟩
        rw [Bool.and_eq_true, beq_iff_eq, beq_iff_eq]
        exact ⟨hrt.symm, hri.symm⟩

theorem getUtxosByOutRef_exact_witness :
    (getUtxosByOutRef
        (fun h => if h = "a" then
          [⟨"a", 0, "addr", [], none, none, none⟩, ⟨"a", 1, "addr", [], none, none, none⟩]
        else [])
        [⟨"a", 0⟩, ⟨"a", 5⟩, ⟨"b", 0⟩, ⟨"a", 0⟩]).Nodup ∧
    ∀ u, u ∈ getUtxosByOutRef
        (fun h => if h = "a" then
          [⟨"a", 0, "addr", [], none, none, none⟩, ⟨"a", 1, "addr", [], none, none, none⟩]
        else [])
        [⟨"a", 0⟩, ⟨"a", 5⟩, ⟨"b", 0⟩, ⟨"a", 0⟩] ↔
      (u ∈ (fun h => if h = "a" then
          [⟨"a", 0, "addr", [], none, none, none⟩, ⟨"a", 1, "addr", [], none, none, none⟩]
        else ([] : List UTxO)) u.txHash ∧
        ∃ r ∈ [OutRef.mk "a" 0, ⟨"a", 5⟩, ⟨"b", 0⟩, ⟨"a", 0⟩],
          r.txHash = u.txHash ∧ r.outputIndex = u.outputIndex) := by
  apply getUtxosByOutRef_exact
  · intro h u hu
    by_cases hha : h = "a"
    · subst hha
      have hu' : u = ⟨"a", 0, "addr", [], none, none, none⟩ ∨
          u = ⟨"a", 1, "addr", [], none, none, none⟩ := by simpa using hu
      rcases hu' with rfl | rfl <;> rfl
    · rw [if_neg hha] at hu
      exact absurd hu (List.not_mem_nil u)
  · intro h
    by_cases hha : h = "a"
    · subst hha
      simp only [if_pos rfl]
      refine List.Pairwise.cons ?_ (List.Pairwise.cons ?_ List.Pairwise.nil)
      · intro b hb
        rcases List.mem_cons.mp hb with rfl | hb'
        · decide
        · exact absurd hb' (List.not_mem_nil b)
      · intro b hb
        exact absurd hb (List.not_mem_nil b)
    · rw [if_neg hha]
      exact List.Pairwise.nil

/-- C8: Protocol-parameter parsing converts each execution price expressed as
a `"numerator/denominator"` string into the numeric ratio numerator divided
by denominator: memory price string `"10/1"` yields `10`, step price string
`"2/1"` yields `2`, and `"577/10000"` yields `0.0577`. -/
theorem parseExecPrice_values :
    parseScriptExecutionPrices "10/1" "2/1" = (some 10, some 2) ∧
    parseExecPrice "577/10000" = some (0.0577 : ℚ) := by
  have h1 : parseExecPrice "10/1" = some (((10 : Int) : ℚ) / ((1 : Int) : ℚ)) := rfl
  have h2 : parseExecPrice "2/1" = some (((2 : Int) : ℚ) / ((1 : Int) : ℚ)) := rfl
  have h3 : parseExecPrice "577/10000" =
      some (((577 : Int) : ℚ) / ((10000 : Int) : ℚ)) := rfl
  refine ⟨?_, ?_⟩
  · rw [parseScriptExecutionPrices, h1, h2]
    simp only [Prod.mk.injEq, Option.some.injEq]
    norm_num
  · rw [h3]
    simp only [Option.some.injEq]
    norm_num

/-- C5: `getDelegation` extracts the single entry (if any) for the queried
reward address from the `rewardAccountSummaries` response object; when the
response object carries no entry for the address, the call succeeds and
returns a delegation record with a `null` pool identifier and zero rewards. -/
theorem getDelegation_spec (entries : List RewardEntry) :
    (entries = [] → getDelegation (some entries) = .ok { poolId := none, rewards := 0 }) ∧
    (∀ e es, entries = e :: es → e.delegate_id ≠ "" →
      getDelegation (some entries) =
        .ok { poolId := some e.delegate_id, rewards := e.rewards_lovelace }) := by
  constructor
  · rintro rfl
    rfl
  · rintro e es rfl hid
    simp [getDelegation, hid]

theorem getDelegation_spec_witness :
    getDelegation (some []) = .ok { poolId := none, rewards := 0 } ∧
    getDelegation (some [⟨"pool1abc", 42⟩]) =
      .ok { poolId := some "pool1abc", rewards := 42 } := by
  refine ⟨(getDelegation_spec []).1 rfl, ?_⟩
  exact (getDelegation_spec [⟨"pool1abc", 42⟩]).2 ⟨"pool1abc", 42⟩ [] rfl (by decide)

/-- C6: `getDatum` fails — with an error message naming the missing hash —
exactly when the backend response carries no datum body for that hash, and
otherwise returns the datum body from the response.  (Response bodies are
nonempty strings; the well-formedness hypothesis records that.) -/
theorem getDatum_spec (datumOracle : String → Option (Option String)) (h : String)
    (hwf : ∀ d, datumOracle h = some (some d) → d ≠ "") :
    (getDatum datumOracle h = .error ("No datum found for datum hash: " ++ h) ↔
      ∀ d, datumOracle h ≠ some (some d)) ∧
    (∀ d, datumOracle h = some (some d) → getDatum datumOracle h = .ok d) := by
  constructor
  · constructor
    · intro herr d hd
      have hne := hwf d hd
      rw [getDatum, hd] at herr
      simp [hne] at herr
    · intro hnone
      rw [getDatum]
      cases hresp : datumOracle h with
      | none => rfl
      | some o =>
        cases o with
        | none => rfl
        | some d => exact absurd hresp (hnone d)
  · intro d hd
    have hne := hwf d hd
    rw [getDatum, hd]
    simp [hne]

theorem getDatum_spec_witness :
    getDatum (fun _ => none) "abcd" = .error ("No datum found for datum hash: " ++ "abcd") ∧
    getDatum (fun _ => some (some "d879")) "abcd" = .ok "d879" := by
  constructor
  · exact (getDatum_spec (fun _ => none) "abcd" (by intro d hd; cases hd)).1.mpr
      (by intro d hd; cases hd)
  · exact (getDatum_spec (fun _ => some (some "d879")) "abcd"
      (by intro d hd; simp at hd; subst hd; decide)).2 "d879" rfl

/-- C7: `submitTx` resolves with the backend-assigned transaction identifier
when the RPC response carries a result containing a transaction, and when the
response carries an RPC-level error instead of a result it fails, rejecting
with the backend's error payload unchanged. -/
theorem submitTx_spec (r : SubmitResponse) :
    (∀ sr t, r.result = some sr → sr.transaction = some t → submitTx r = .ok t.id) ∧
    (r.result = none → submitTx r = .error r.error) := by
  constructor
  · intro sr t hres htx
    simp [submitTx, hres, htx]
  · intro hres
    simp [submitTx, hres]

theorem submitTx_spec_witness :
    submitTx ⟨some ⟨some ⟨"deadbeef"⟩⟩, none⟩ = .ok "deadbeef" ∧
    submitTx ⟨none, some "SubmitTxError"⟩ = .error (some "SubmitTxError") := by
  constructor
  · exact (submitTx_spec ⟨some ⟨some ⟨"deadbeef"⟩⟩, none⟩).1 ⟨some ⟨"deadbeef"⟩⟩
      ⟨"deadbeef"⟩ rfl rfl
  · exact (submitTx_spec ⟨none, some "SubmitTxError"⟩).2 rfl

/-- A successful `getDatum` returns a nonempty body that the oracle holds. -/
theorem getDatum_ok_iff (datumOracle : String → Option (Option String))
    (h d : String) :
    getDatum datumOracle h = Except.ok d ↔
      datumOracle h = some (some d) ∧ d ≠ "" := by
  rw [getDatum]
  split
  · next heq => simp [heq]
  · next heq => simp [heq]
  · next b heq =>
    rw [heq]
    by_cases hb : b = ""
    · rw [if_pos hb]
      constructor
      · intro herr; simp at herr
      · rintro ⟨h1, h2⟩
        simp only [Option.some.injEq] at h1
        subst hb
        exact absurd h1.symm h2
    · rw [if_neg hb]
      simp only [Except.ok.injEq, Option.some.injEq]
      constructor
      · intro hbd; subst hbd; exact ⟨rfl, hb⟩
      · intro hd; exact hd.1

/-- C4: normalization keeps the datum hash and the inline datum body mutually
exclusive: a record whose `datum_type` is `"inline"` yields a populated datum
body and a `null` datum hash; one whose `datum_type` is `"hash"` yields a
populated datum hash and a `null` datum body; a record with neither datum
type yields both fields `null`. -/
theorem kupmiosUtxoToUtxo_datumFields (datumOracle : String → Option (Option String))
    (reencode : String → String) (scriptOracle : String → String × String)
    (u : KupmiosUtxo) (out : UTxO)
    (hok : kupmiosUtxoToUtxo datumOracle reencode scriptOracle u = Except.ok out) :
    (u.datum_type = some "inline" →
      ∃ d, d ≠ "" ∧ out.datum = some d ∧ out.datumHash = none) ∧
    (u.datum_type = some "hash" → out.datumHash = some u.datum_hash ∧ out.datum = none) ∧
    (u.datum_type ≠ some "inline" → u.datum_type ≠ some "hash" →
      out.datumHash = none ∧ out.datum = none) := by
  rw [kupmiosUtxoToUtxo] at hok
  by_cases hin : u.datum_type = some "inline"
  · rw [if_pos hin] at hok
    cases hd : getDatum datumOracle u.datum_hash with
    | error e => rw [hd] at hok; simp [Except.map] at hok
    | ok d =>
      rw [hd] at hok
      simp only [Except.map, Except.ok.injEq] at hok
      subst hok
      have hne := ((getDatum_ok_iff datumOracle u.datum_hash d).mp hd).2
      refine ⟨fun _ => ⟨d, hne, rfl, ?_⟩, fun hhash => ?_, fun hni _ => absurd hin hni⟩
      · simp [hin]
      · rw [hin] at hhash
        simp at hhash
  · rw [if_neg hin] at hok
    simp only [Except.ok.injEq] at hok
    subst hok
    by_cases hhash : u.datum_type = some "hash"
    · exact ⟨fun hi => absurd hi hin, fun _ => ⟨by simp [hhash], rfl⟩,
        fun _ hnh => absurd hhash hnh⟩
    · exact ⟨fun hi => absurd hi hin, fun hh => absurd hh hhash,
        fun _ _ => ⟨by simp [hhash], rfl⟩⟩

theorem kupmiosUtxoToUtxo_datumFields_witness :
    ∃ out, (kupmiosUtxoToUtxo (fun _ => some (some "d879"))
        id (fun _ => ("", "")) ⟨"tx0", 0, "addr0", 5, [], some "inline", "dh0", none⟩ =
        Except.ok out) ∧
      ∃ d, d ≠ "" ∧ out.datum = some d ∧ out.datumHash = none := by
  have hok : kupmiosUtxoToUtxo (fun _ => some (some "d879"))
      id (fun _ => ("", "")) ⟨"tx0", 0, "addr0", 5, [], some "inline", "dh0", none⟩ =
      Except.ok ⟨"tx0", 0, "addr0", [("lovelace", 5)], none, some "d879", none⟩ := rfl
  exact ⟨_, hok,
    (kupmiosUtxoToUtxo_datumFields (fun _ => some (some "d879")) id (fun _ => ("", ""))
      ⟨"tx0", 0, "addr0", 5, [], some "inline", "dh0", none⟩
      ⟨"tx0", 0, "addr0", [("lovelace", 5)], none, some "d879", none⟩ hok).1 rfl⟩

/-- C10: a raw match record carrying a script hash whose fetched language tag
is none of `"native"`, `"plutus:v1"`, `"plutus:v2"` still normalizes
successfully (given the datum side resolves), producing a UTxO whose
`scriptRef` is `undefined` — the script is silently omitted. -/
theorem kupmiosUtxoToUtxo_unknownScript (datumOracle : String → Option (Option String))
    (reencode : String → String) (scriptOracle : String → String × String)
    (u : KupmiosUtxo) (h : String)
    (hsh : u.script_hash = some h)
    (hn : (scriptOracle h).2 ≠ "native")
    (h1 : (scriptOracle h).2 ≠ "plutus:v1")
    (h2 : (scriptOracle h).2 ≠ "plutus:v2")
    (hdat : u.datum_type = some "inline" →
      ∃ d, d ≠ "" ∧ datumOracle u.datum_hash = some (some d)) :
    ∃ out, kupmiosUtxoToUtxo datumOracle reencode scriptOracle u = Except.ok out ∧
      out.scriptRef = none := by
  have hscript : resolveScriptRef reencode scriptOracle u.script_hash = none := by
    rw [hsh, resolveScriptRef]
    simp [hn, h1, h2]
  rw [kupmiosUtxoToUtxo]
  by_cases hin : u.datum_type = some "inline"
  · obtain ⟨d, hd, hor⟩ := hdat hin
    have hgd : getDatum datumOracle u.datum_hash = Except.ok d :=
      (getDatum_ok_iff datumOracle u.datum_hash d).mpr ⟨hor, hd⟩
    rw [if_pos hin, hgd]
    exact ⟨_, rfl, hscript⟩
  · rw [if_neg hin]
    exact ⟨_, rfl, hscript⟩

theorem kupmiosUtxoToUtxo_unknownScript_witness :
    ∃ out, kupmiosUtxoToUtxo (fun _ => none) id (fun _ => ("0000", "plutus:v3"))
        ⟨"tx0", 0, "addr0", 5, [], none, "", some "sh0"⟩ = Except.ok out ∧
      out.scriptRef = none := by
  exact kupmiosUtxoToUtxo_unknownScript (fun _ => none) id (fun _ => ("0000", "plutus:v3"))
    ⟨"tx0", 0, "addr0", 5, [], none, "", some "sh0"⟩ "sh0" rfl
    (by decide) (by decide) (by decide) (fun hin => Option.noConfusion hin)

/-- A successful `mapM` over `Except` preserves list length. -/
theorem mapM_ok_length {α β : Type} (f : α → Except String β) :
    ∀ (l : List α) (res : List β), l.mapM f = Except.ok res → res.length = l.length := by
  intro l
  induction l with
  | nil =>
    intro res hres
    rw [List.mapM_nil] at hres
    cases hres
    rfl
  | cons a l ih =>
    intro res hres
    rw [List.mapM_cons] at hres
    cases hfa : f a with
    | error e => rw [hfa] at hres; simp [Bind.bind, Except.bind] at hres
    | ok b =>
      rw [hfa] at hres
      cases hml : l.mapM f with
      | error e => rw [hml] at hres; simp [Bind.bind, Except.bind] at hres
      | ok bs =>
        rw [hml] at hres
        simp only [Bind.bind, Except.bind, Pure.pure, Except.pure, Except.ok.injEq] at hres
        subst hres
        simp [ih bs hml]

/-- C2: if the exact-unit query yields exactly one record, `getUtxoByUnit`
succeeds and returns that record normalized; if it yields two or more
records (all normalizing), the call fails with the error stating the
single-holder assumption was violated. -/
theorem getUtxoByUnit_spec (datumOracle : String → Option (Option String))
    (reencode : String → String) (scriptOracle : String → String × String)
    (records : List KupmiosUtxo) :
    (∀ r u, records = [r] →
      kupmiosUtxoToUtxo datumOracle reencode scriptOracle r = Except.ok u →
      getUtxoByUnit datumOracle reencode scriptOracle records = Except.ok (some u)) ∧
    (∀ us, 2 ≤ records.length →
      kupmiosUtxosToUtxos datumOracle reencode scriptOracle records = Except.ok us →
      getUtxoByUnit datumOracle reencode scriptOracle records =
        Except.error "Unit needs to be an NFT or only held by one address.") := by
  constructor
  · rintro r u rfl hr
    have hmap : kupmiosUtxosToUtxos datumOracle reencode scriptOracle [r] =
        Except.ok [u] := by
      rw [kupmiosUtxosToUtxos, List.mapM_cons, List.mapM_nil, hr]
      rfl
    rw [getUtxoByUnit, hmap]
    rfl
  · intro us hlen hus
    have hl : us.length = records.length :=
      mapM_ok_length (kupmiosUtxoToUtxo datumOracle reencode scriptOracle) records us hus
    have hgt : us.length > 1 := by omega
    simp [getUtxoByUnit, hus, hgt]

theorem getUtxoByUnit_spec_witness :
    getUtxoByUnit (fun _ => none) id (fun _ => ("", ""))
      [⟨"tx0", 0, "addr0", 5, [], none, "", none⟩] =
      Except.ok (some ⟨"tx0", 0, "addr0", [("lovelace", 5)], none, none, none⟩) ∧
    getUtxoByUnit (fun _ => none) id (fun _ => ("", ""))
      [⟨"tx0", 0, "addr0", 5, [], none, "", none⟩,
       ⟨"tx1", 1, "addr1", 7, [], none, "", none⟩] =
      Except.error "Unit needs to be an NFT or only held by one address." := by
  constructor
  · exact (getUtxoByUnit_spec (fun _ => none) id (fun _ => ("", ""))
      [⟨"tx0", 0, "addr0", 5, [], none, "", none⟩]).1
      ⟨"tx0", 0, "addr0", 5, [], none, "", none⟩
      ⟨"tx0", 0, "addr0", [("lovelace", 5)], none, none, none⟩ rfl rfl
  · exact (getUtxoByUnit_spec (fun _ => none) id (fun _ => ("", ""))
      [⟨"tx0", 0, "addr0", 5, [], none, "", none⟩,
       ⟨"tx1", 1, "addr1", 7, [], none, "", none⟩]).2
      [⟨"tx0", 0, "addr0", [("lovelace", 5)], none, none, none⟩,
       ⟨"tx1", 1, "addr1", [("lovelace", 7)], none, none, none⟩]
      (by decide) rfl

/-- C9: when the exact-unit query yields zero matching records,
`getUtxoByUnit` does not fail: it resolves with `utxos[0]` of an empty array,
i.e. `undefined` (`none`), rather than raising a not-found error. -/
theorem getUtxoByUnit_empty (datumOracle : String → Option (Option String))
    (reencode : String → String) (scriptOracle : String → String × String) :
    getUtxoByUnit datumOracle reencode scriptOracle [] = .ok none := rfl

end Kupmios
